import Mathlib

/-!
# Verification of the Tiered Prefix Suggestion Engine (t9plus.c)

A shallow embedding of `src/t9plus.c`: the vocabulary-store data model,
the line-oriented tier loader, the initialization/shutdown lifecycle and
the suggestion resolver, together with theorems settling the spec claims.

Modelling conventions:
* C strings become `List Char`; a `NULL` pointer argument becomes `none`.
* The file system is a record of `Option (List Char)` (file contents);
  `none` models a file that fails to open.
* The byte-by-byte read loop of `load_tier_from_file` becomes a
  structural recursion over the content list; the inner "skip to next
  line" `while` loop becomes a `skipping : Bool` component of the state.
* `malloc`/`strdup` failures are not modelled (allocation succeeds).
-/

set_option autoImplicit false

/-- `#define MAX_TIER_WORDS 1000` (t9plus.c line 10). -/
def MAX_TIER_WORDS : Nat := 1000

/-- `#define MAX_WORD_LEN 32` (t9plus.c line 11). -/
def MAX_WORD_LEN : Nat := 32

/-- `#define T9PLUS_MAX_SUGGESTIONS 3` (t9plus.h line 5). -/
def T9PLUS_MAX_SUGGESTIONS : Nat := 3

/-- `#define T9PLUS_MAX_WORD_LENGTH 32` (t9plus.h line 8). -/
def T9PLUS_MAX_WORD_LENGTH : Nat := 32

/-- `WordTier`: a list of owned words plus a capacity.  `count` is the
length of `words`. -/
structure WordTier where
  words : List (List Char)
  capacity : Nat
deriving DecidableEq, Repr

/-- `tier->count` of the C struct. -/
def WordTier.count (tier : WordTier) : Nat := tier.words.length

/-- `tier_add_word` (t9plus.c lines 53-61): reject when the tier is at
capacity, otherwise append a copy of the word.  Returns the updated tier
and the C function's boolean result. -/
def tier_add_word (tier : WordTier) (word : List Char) : WordTier × Bool :=
  if tier.capacity ≤ tier.words.length then (tier, false)
  else ({ tier with words := tier.words ++ [word] }, true)

/-- ASCII `isspace` of `<ctype.h>` in the C locale. -/
def c_isspace (c : Char) : Bool :=
  c == ' ' || c == '\t' || c == '\n' || c == '\x0b' || c == '\x0c' || c == '\r'

/-- The trailing-whitespace trim loop of `load_tier_from_file`
(t9plus.c lines 97-100): remove whitespace from the end of the buffer. -/
def rtrim (l : List Char) : List Char :=
  (l.reverse.dropWhile c_isspace).reverse

/-- Finishing one line of input (t9plus.c lines 96-105): trim trailing
whitespace, then insert the word when it is non-empty and its first
character is not `#`. -/
def finish_line (buf : List Char) (tier : WordTier) : WordTier :=
  let t := rtrim buf
  if 0 < t.length ∧ t.head? ≠ some '#' then (tier_add_word tier t).1 else tier

/-- The read loop of `load_tier_from_file` (t9plus.c lines 77-116).
`buf` is the accumulated characters of the current line (the C `buffer`
up to `pos`); `skipping` is true while the inner line-skipping `while`
loop of the too-long-word branch is consuming the rest of a line. -/
def load_lines : List Char → List Char → Bool → WordTier → WordTier
  | [], _, true, tier => tier
  | [], buf, false, tier => finish_line buf tier
  | c :: rest, buf, skipping, tier =>
    if skipping then
      if c = '\n' ∨ c = '\r' then load_lines rest [] false tier
      else load_lines rest buf true tier
    else if c = '\n' ∨ c = '\r' then
      load_lines rest [] false (finish_line buf tier)
    else if buf.length < MAX_WORD_LEN then
      load_lines rest (buf ++ [c]) false tier
    else
      load_lines rest buf true tier

/-- `load_tier_from_file` (t9plus.c lines 64-129) over a modelled file
system: `none` is a file that fails to open (the tier is untouched and
the load reports failure); otherwise the content is fed through the
read loop and the load reports success. -/
def load_tier_from_file (content : Option (List Char)) (tier : WordTier) :
    WordTier × Bool :=
  match content with
  | none => (tier, false)
  | some cs => (load_lines cs [] false tier, true)

/-- The global `t9plus_state` (t9plus.c lines 19-28). -/
structure T9State where
  tier1 : WordTier
  tier2 : WordTier
  tier3a : WordTier
  tier3b : WordTier
  tier4 : WordTier
  initialized : Bool
  has_load_errors : Bool
  error_message : String
deriving DecidableEq, Repr

/-- The zero-initialized global state (`= {0}`, t9plus.c line 28). -/
def t9plus_state_zero : T9State :=
  ⟨⟨[], 0⟩, ⟨[], 0⟩, ⟨[], 0⟩, ⟨[], 0⟩, ⟨[], 0⟩, false, false, ""⟩

/-- The five external data files read by `t9plus_init`
(t9plus.c lines 175-194). -/
structure DataFiles where
  tier1_function_words : Option (List Char)
  tier2_lemma_list : Option (List Char)
  tier3a_chat : Option (List Char)
  tier3b_fillers : Option (List Char)
  tier4_formal_discourse : Option (List Char)
deriving DecidableEq, Repr

/-- The hardcoded fallback word list (t9plus.c lines 199-215). -/
def fallback_words : List (List Char) :=
  ["the", "that", "this", "to", "it", "is", "in", "and", "have", "we",
   "were", "will", "would", "hello", "help", "world", "work"].map String.toList

/-- The fallback injection loop of `t9plus_init` (t9plus.c lines 197-217):
the boolean results of the `tier_add_word` calls are discarded. -/
def add_fallback (tier : WordTier) : WordTier :=
  fallback_words.foldl (fun t w => (tier_add_word t w).1) tier

/-- The body of `t9plus_init` past the already-initialized guard
(t9plus.c lines 137-243): five fresh tiers of capacity `MAX_TIER_WORDS`
are loaded independently from the data files, the fallback words are
injected into tier1 when it is still empty, and the diagnostic message
is recorded from the failure count. -/
def t9plus_init_fresh (fs : DataFiles) : T9State :=
  let r1 := load_tier_from_file fs.tier1_function_words ⟨[], MAX_TIER_WORDS⟩
  let r2 := load_tier_from_file fs.tier2_lemma_list ⟨[], MAX_TIER_WORDS⟩
  let r3a := load_tier_from_file fs.tier3a_chat ⟨[], MAX_TIER_WORDS⟩
  let r3b := load_tier_from_file fs.tier3b_fillers ⟨[], MAX_TIER_WORDS⟩
  let r4 := load_tier_from_file fs.tier4_formal_discourse ⟨[], MAX_TIER_WORDS⟩
  let failed_count : Nat :=
    (if r1.2 then 0 else 1) + (if r2.2 then 0 else 1) + (if r3a.2 then 0 else 1) +
    (if r3b.2 then 0 else 1) + (if r4.2 then 0 else 1)
  let t1 := if r1.1.words.length = 0 then add_fallback r1.1 else r1.1
  let diag : Bool × String :=
    if 0 < failed_count then
      if failed_count = 5 then (true, "ERROR: No data files found!")
      else (true, "WARNING: " ++ toString failed_count ++ " data file(s) missing")
    else (false, "")
  ⟨t1, r2.1, r3a.1, r3b.1, r4.1, true, diag.1, diag.2⟩

/-- `t9plus_init` (t9plus.c lines 131-244).  Already-initialized states
return success unchanged; otherwise the fresh-initialization body runs.
(Tier allocation failure, the only `false` return, is not modelled:
allocation always succeeds in the embedding.) -/
def t9plus_init (st : T9State) (fs : DataFiles) : T9State × Bool :=
  if st.initialized then (st, true)
  else (t9plus_init_fresh fs, true)

/-- `t9plus_deinit` (t9plus.c lines 246-258): a no-op when not
initialized; otherwise every tier is freed and the flag cleared. -/
def t9plus_deinit (st : T9State) : T9State :=
  if st.initialized = false then st
  else { st with tier1 := ⟨[], 0⟩, tier2 := ⟨[], 0⟩, tier3a := ⟨[], 0⟩,
                 tier3b := ⟨[], 0⟩, tier4 := ⟨[], 0⟩, initialized := false }

/-- `t9plus_is_word_char` (t9plus.c lines 260-262), ASCII `isalnum`. -/
def t9plus_is_word_char (c : Char) : Bool :=
  (('a' ≤ c ∧ c ≤ 'z') ∨ ('A' ≤ c ∧ c ≤ 'Z') ∨ ('0' ≤ c ∧ c ≤ '9') ∨ c = '\x27')

/-- `t9plus_get_error_message` (t9plus.c lines 264-274); `none` models
the `NULL` "no error" return. -/
def t9plus_get_error_message (st : T9State) : Option String :=
  if st.initialized = false then some "T9+ not initialized"
  else if st.has_load_errors then some st.error_message
  else none

/-- ASCII `tolower` of `<ctype.h>` in the C locale. -/
def c_tolower (c : Char) : Char :=
  if 'A' ≤ c ∧ c ≤ 'Z' then Char.ofNat (c.toNat + 32) else c

/-- The comparison loop of `starts_with_ci` (t9plus.c lines 285-291),
driven by the second argument (the query). -/
def ci_eq_chars : List Char → List Char → Bool
  | _, [] => true
  | [], _ :: _ => false
  | w :: ws, p :: ps => c_tolower w == c_tolower p && ci_eq_chars ws ps

/-- `starts_with_ci` (t9plus.c lines 277-294): a word shorter than the
query never matches; otherwise compare the first `pfx.length`
characters case-insensitively. -/
def starts_with_ci (word pfx : List Char) : Bool :=
  if word.length < pfx.length then false
  else ci_eq_chars word pfx

/-- The scan loop of `search_tier` (t9plus.c lines 307-315): walk the
tier's words in insertion order, stop as soon as the budget is full,
and copy each match truncated to `T9PLUS_MAX_WORD_LENGTH - 1`
characters (the `strncpy` bound). -/
def search_tier_words (ws : List (List Char)) (pfx : List Char)
    (found : List (List Char)) (maxS : Nat) : List (List Char) :=
  match ws with
  | [] => found
  | w :: rest =>
    if maxS ≤ found.length then found
    else if starts_with_ci w pfx then
      search_tier_words rest pfx (found ++ [w.take (T9PLUS_MAX_WORD_LENGTH - 1)]) maxS
    else search_tier_words rest pfx found maxS

/-- `search_tier` (t9plus.c lines 297-322). -/
def search_tier (tier : WordTier) (pfx : List Char)
    (found : List (List Char)) (maxS : Nat) : List (List Char) :=
  search_tier_words tier.words pfx found maxS

/-- The whitespace set of the word-extraction scan in
`t9plus_get_suggestions` (t9plus.c lines 358, 364, 380): space, newline
and carriage return only. -/
def is_sep (c : Char) : Bool := c == ' ' || c == '\n' || c == '\r'

/-- The last-word extraction of `t9plus_get_suggestions`
(t9plus.c lines 346-383): skip trailing separators from the end, return
`[]` when nothing remains (`last_word_start >= word_end`), otherwise
take the trailing separator-free run, truncated by the copy loop to
`MAX_WORD_LEN - 1` characters. -/
def extract_last_word (s : List Char) : List Char :=
  let stripped := (s.reverse.dropWhile is_sep).reverse
  if stripped.length = 0 then []
  else ((stripped.reverse.takeWhile (fun c => !is_sep c)).reverse).take (MAX_WORD_LEN - 1)

/-- The clamp of `max_suggestions` (t9plus.c lines 342-344). -/
def clamp_suggestions (n : Nat) : Nat :=
  if T9PLUS_MAX_SUGGESTIONS < n then T9PLUS_MAX_SUGGESTIONS else n

/-- The tier scan of `t9plus_get_suggestions` (t9plus.c lines 399-425):
tier1, then tier3a, tier3b, tier2, tier4, each guarded by the budget. -/
def scan_tiers (st : T9State) (pfx : List Char) (maxS : Nat) : List (List Char) :=
  let r1 := search_tier st.tier1 pfx [] maxS
  let r2 := if r1.length < maxS then search_tier st.tier3a pfx r1 maxS else r1
  let r3 := if r2.length < maxS then search_tier st.tier3b pfx r2 maxS else r2
  let r4 := if r3.length < maxS then search_tier st.tier2 pfx r3 maxS else r3
  if r4.length < maxS then search_tier st.tier4 pfx r4 maxS else r4

/-- `t9plus_get_suggestions` (t9plus.c lines 324-435).  The returned
list is the filled portion of the C `suggestions` output array; its
length is the C function's return value. -/
def t9plus_get_suggestions (st : T9State) (input : Option (List Char))
    (max_suggestions : Nat) : List (List Char) :=
  if st.initialized = false then []
  else
    match input with
    | none => []
    | some s =>
      if s.length = 0 then []
      else if (extract_last_word s).length = 0 then []
      else scan_tiers st (extract_last_word s) (clamp_suggestions max_suggestions)

/-! ## Basic lemmas: tiers, trimming, the loader invariant -/

theorem tier_add_word_capacity (tier : WordTier) (w : List Char) :
    (tier_add_word tier w).1.capacity = tier.capacity := by
  unfold tier_add_word
  split <;> rfl

theorem tier_add_word_full (tier : WordTier) (w : List Char)
    (h : tier.capacity ≤ tier.words.length) : tier_add_word tier w = (tier, false) := by
  unfold tier_add_word
  simp [h]

theorem length_dropWhile_le (p : Char → Bool) (l : List Char) :
    (l.dropWhile p).length ≤ l.length := by
  induction l with
  | nil => simp
  | cons a l ih =>
    rw [List.dropWhile_cons]
    split
    · exact le_trans ih (Nat.le_succ _)
    · exact le_refl _

theorem rtrim_length_le (l : List Char) : (rtrim l).length ≤ l.length := by
  unfold rtrim
  have h := length_dropWhile_le c_isspace l.reverse
  simp only [List.length_reverse] at *
  exact h

/-- The invariant of a tier: within capacity, every word within the
length bound actually enforced by the loader. -/
def TierBounded (tier : WordTier) : Prop :=
  tier.words.length ≤ tier.capacity ∧ ∀ w ∈ tier.words, w.length ≤ MAX_WORD_LEN

theorem tier_add_word_bounded (tier : WordTier) (w : List Char)
    (hb : TierBounded tier) (hw : w.length ≤ MAX_WORD_LEN) :
    TierBounded (tier_add_word tier w).1 := by
  unfold tier_add_word
  split
  · exact hb
  · rename_i h
    refine ⟨?_, ?_⟩
    · simp only [List.length_append, List.length_singleton]
      omega
    · intro x hx
      simp only [List.mem_append, List.mem_singleton] at hx
      rcases hx with hx | rfl
      · exact hb.2 x hx
      · exact hw

theorem finish_line_bounded (buf : List Char) (tier : WordTier)
    (hb : TierBounded tier) (hbuf : buf.length ≤ MAX_WORD_LEN) :
    TierBounded (finish_line buf tier) := by
  simp only [finish_line]
  split
  · exact tier_add_word_bounded _ _ hb (le_trans (rtrim_length_le buf) hbuf)
  · exact hb

theorem finish_line_capacity (buf : List Char) (tier : WordTier) :
    (finish_line buf tier).capacity = tier.capacity := by
  simp only [finish_line]
  split
  · exact tier_add_word_capacity _ _
  · rfl

theorem load_lines_bounded (input : List Char) :
    ∀ (buf : List Char) (sk : Bool) (tier : WordTier),
      TierBounded tier → buf.length ≤ MAX_WORD_LEN →
      TierBounded (load_lines input buf sk tier) := by
  induction input with
  | nil =>
    intro buf sk tier hb hbuf
    cases sk
    · exact finish_line_bounded buf tier hb hbuf
    · exact hb
  | cons c rest ih =>
    intro buf sk tier hb hbuf
    simp only [load_lines]
    split
    · split
      · exact ih [] false tier hb (by simp)
      · exact ih buf true tier hb hbuf
    · split
      · exact ih [] false _ (finish_line_bounded buf tier hb hbuf) (by simp)
      · split
        · rename_i hlen
          refine ih (buf ++ [c]) false tier hb ?_
          simp only [List.length_append, List.length_singleton]
          omega
        · exact ih buf true tier hb hbuf

theorem load_lines_capacity (input : List Char) :
    ∀ (buf : List Char) (sk : Bool) (tier : WordTier),
      (load_lines input buf sk tier).capacity = tier.capacity := by
  induction input with
  | nil =>
    intro buf sk tier
    cases sk
    · exact finish_line_capacity buf tier
    · rfl
  | cons c rest ih =>
    intro buf sk tier
    simp only [load_lines]
    split
    · split
      · exact ih [] false tier
      · exact ih buf true tier
    · split
      · exact (ih [] false _).trans (finish_line_capacity buf tier)
      · split
        · exact ih (buf ++ [c]) false tier
        · exact ih buf true tier

theorem load_tier_from_file_bounded (content : Option (List Char)) (tier : WordTier)
    (hb : TierBounded tier) : TierBounded (load_tier_from_file content tier).1 := by
  cases content
  · exact hb
  · exact load_lines_bounded _ [] false tier hb (by simp)

theorem load_tier_from_file_capacity (content : Option (List Char)) (tier : WordTier) :
    (load_tier_from_file content tier).1.capacity = tier.capacity := by
  cases content
  · rfl
  · exact load_lines_capacity _ [] false tier

theorem foldl_add_word_bounded (ws : List (List Char)) :
    ∀ (tier : WordTier), TierBounded tier → (∀ w ∈ ws, w.length ≤ MAX_WORD_LEN) →
      TierBounded (ws.foldl (fun t w => (tier_add_word t w).1) tier) := by
  induction ws with
  | nil => intro tier hb _; exact hb
  | cons w ws ih =>
    intro tier hb hws
    simp only [List.foldl_cons]
    exact ih _ (tier_add_word_bounded _ _ hb (hws w (by simp)))
      (fun x hx => hws x (by simp [hx]))

theorem foldl_add_word_capacity (ws : List (List Char)) :
    ∀ (tier : WordTier),
      (ws.foldl (fun t w => (tier_add_word t w).1) tier).capacity = tier.capacity := by
  induction ws with
  | nil => intro tier; rfl
  | cons w ws ih =>
    intro tier
    simp only [List.foldl_cons]
    exact (ih _).trans (tier_add_word_capacity tier w)

theorem add_fallback_bounded (tier : WordTier) (hb : TierBounded tier) :
    TierBounded (add_fallback tier) :=
  foldl_add_word_bounded _ tier hb (by decide)

theorem add_fallback_capacity (tier : WordTier) :
    (add_fallback tier).capacity = tier.capacity :=
  foldl_add_word_capacity _ tier

theorem t9plus_init_of_not_initialized (st : T9State) (fs : DataFiles)
    (h : st.initialized = false) : t9plus_init st fs = (t9plus_init_fresh fs, true) := by
  simp [t9plus_init, h]

/-! ## The tier scan as filter-map-take -/

/-- The matches one word list contributes, in insertion order: the
case-insensitively matching words, each truncated by the `strncpy`
bound of `search_tier`. -/
def tier_matches (ws : List (List Char)) (pfx : List Char) : List (List Char) :=
  (ws.filter (fun w => starts_with_ci w pfx)).map
    (fun w => w.take (T9PLUS_MAX_WORD_LENGTH - 1))

theorem tier_matches_append (a b : List (List Char)) (pfx : List Char) :
    tier_matches (a ++ b) pfx = tier_matches a pfx ++ tier_matches b pfx := by
  simp [tier_matches, List.filter_append]

theorem search_tier_words_eq (ws : List (List Char)) (pfx : List Char) :
    ∀ (found : List (List Char)) (maxS : Nat), found.length ≤ maxS →
      search_tier_words ws pfx found maxS =
        found ++ (tier_matches ws pfx).take (maxS - found.length) := by
  induction ws with
  | nil =>
    intro found maxS _
    simp [search_tier_words, tier_matches]
  | cons w ws ih =>
    intro found maxS h
    simp only [search_tier_words]
    by_cases hfull : maxS ≤ found.length
    · have heq : maxS - found.length = 0 := by omega
      simp [hfull, heq]
    · rw [if_neg hfull]
      by_cases hm : starts_with_ci w pfx = true
      · rw [if_pos hm]
        rw [ih (found ++ [w.take (T9PLUS_MAX_WORD_LENGTH - 1)]) maxS
          (by simp only [List.length_append, List.length_singleton]; omega)]
        have h1 : maxS - found.length = (maxS - (found.length + 1)) + 1 := by omega
        simp [tier_matches, List.filter_cons, hm, h1, List.take_succ_cons]
      · rw [if_neg hm]
        rw [ih found maxS h]
        have hm' : starts_with_ci w pfx = false := by
          cases hsw : starts_with_ci w pfx
          · rfl
          · exact absurd hsw hm
        simp [tier_matches, List.filter_cons, hm']

theorem search_tier_eq (tier : WordTier) (pfx : List Char)
    (found : List (List Char)) (maxS : Nat) (h : found.length ≤ maxS) :
    search_tier tier pfx found maxS =
      found ++ (tier_matches tier.words pfx).take (maxS - found.length) :=
  search_tier_words_eq tier.words pfx found maxS h

theorem scan_step (r : List (List Char)) (tier : WordTier) (pfx : List Char)
    (maxS : Nat) (h : r.length ≤ maxS) :
    (if r.length < maxS then search_tier tier pfx r maxS else r) =
      r ++ (tier_matches tier.words pfx).take (maxS - r.length) := by
  by_cases hlt : r.length < maxS
  · rw [if_pos hlt]
    exact search_tier_eq tier pfx r maxS h
  · rw [if_neg hlt]
    have hz : maxS - r.length = 0 := by omega
    simp [hz]

theorem take_chain (A B : List (List Char)) (maxS : Nat) :
    A.take maxS ++ B.take (maxS - (A.take maxS).length) = (A ++ B).take maxS := by
  have hl : maxS - (A.take maxS).length = maxS - A.length := by
    simp only [List.length_take]
    omega
  rw [hl, List.take_append_eq_append_take]

theorem scan_tiers_eq (st : T9State) (pfx : List Char) (maxS : Nat) :
    scan_tiers st pfx maxS =
      (tier_matches (st.tier1.words ++ st.tier3a.words ++ st.tier3b.words ++
        st.tier2.words ++ st.tier4.words) pfx).take maxS := by
  have hlen : ∀ (A : List (List Char)), (A.take maxS).length ≤ maxS := by
    intro A
    simp only [List.length_take]
    omega
  simp only [scan_tiers]
  rw [search_tier_eq st.tier1 pfx [] maxS (by simp)]
  simp only [List.nil_append, List.length_nil, Nat.sub_zero]
  rw [scan_step _ st.tier3a pfx maxS (hlen _), take_chain]
  rw [scan_step _ st.tier3b pfx maxS (hlen _), take_chain]
  rw [scan_step _ st.tier2 pfx maxS (hlen _), take_chain]
  rw [scan_step _ st.tier4 pfx maxS (hlen _), take_chain]
  simp only [tier_matches_append, List.append_assoc]

theorem get_suggestions_eq (st : T9State) (s : List Char) (n : Nat)
    (hinit : st.initialized = true) (hs : s.length ≠ 0)
    (hw : (extract_last_word s).length ≠ 0) :
    t9plus_get_suggestions st (some s) n =
      (tier_matches (st.tier1.words ++ st.tier3a.words ++ st.tier3b.words ++
        st.tier2.words ++ st.tier4.words) (extract_last_word s)).take
        (clamp_suggestions n) := by
  simp only [t9plus_get_suggestions, hinit]
  simp [hs, hw, scan_tiers_eq]

/-! ## Line-level behaviour of the loader -/

theorem load_lines_skip (l : List Char) :
    ∀ (rest buf : List Char) (tier : WordTier),
      (∀ c ∈ l, ¬(c = '\n' ∨ c = '\r')) →
      load_lines (l ++ '\n' :: rest) buf true tier = load_lines rest [] false tier := by
  induction l with
  | nil =>
    intro rest buf tier _
    simp [load_lines]
  | cons c cs ih =>
    intro rest buf tier h
    have hc := h c (by simp)
    simp only [List.cons_append, load_lines, if_true]
    rw [if_neg hc]
    exact ih rest buf tier (fun x hx => h x (by simp [hx]))

theorem load_lines_long_line (l : List Char) :
    ∀ (buf rest : List Char) (tier : WordTier),
      MAX_WORD_LEN < buf.length + l.length → buf.length ≤ MAX_WORD_LEN →
      (∀ c ∈ l, ¬(c = '\n' ∨ c = '\r')) →
      load_lines (l ++ '\n' :: rest) buf false tier = load_lines rest [] false tier := by
  induction l with
  | nil =>
    intro buf rest tier h1 h2 _
    exfalso
    simp only [List.length_nil, Nat.add_zero] at h1
    omega
  | cons c cs ih =>
    intro buf rest tier h1 h2 h
    have hc := h c (by simp)
    simp only [List.cons_append, load_lines]
    rw [if_neg (by simp), if_neg hc]
    by_cases hb : buf.length < MAX_WORD_LEN
    · rw [if_pos hb]
      refine ih (buf ++ [c]) rest tier ?_ ?_ (fun x hx => h x (by simp [hx]))
      · simp only [List.length_cons] at h1
        simp only [List.length_append, List.length_singleton]
        omega
      · simp only [List.length_append, List.length_singleton]
        omega
    · rw [if_neg hb]
      exact load_lines_skip cs rest buf tier (fun x hx => h x (by simp [hx]))

theorem load_lines_one_line (l : List Char) :
    ∀ (buf rest : List Char) (tier : WordTier),
      buf.length + l.length ≤ MAX_WORD_LEN →
      (∀ c ∈ l, ¬(c = '\n' ∨ c = '\r')) →
      load_lines (l ++ '\n' :: rest) buf false tier =
        load_lines rest [] false (finish_line (buf ++ l) tier) := by
  induction l with
  | nil =>
    intro buf rest tier _ _
    simp [load_lines]
  | cons c cs ih =>
    intro buf rest tier h1 h
    have hc := h c (by simp)
    simp only [List.cons_append, load_lines]
    rw [if_neg (by simp), if_neg hc,
      if_pos (by simp only [List.length_cons] at h1; omega)]
    rw [show buf ++ c :: cs = (buf ++ [c]) ++ cs by
      rw [List.append_assoc, List.singleton_append]]
    exact ih (buf ++ [c]) rest tier
      (by simp only [List.length_cons] at h1
          simp only [List.length_append, List.length_singleton]
          omega)
      (fun x hx => h x (by simp [hx]))

/-! ## Concrete fixtures used by counterexamples and witnesses -/

/-- A file system where none of the five data files can be opened. -/
def fsNone : DataFiles := ⟨none, none, none, none, none⟩

/-- A file system where the tier1 source holds exactly the word
`test`. -/
def fsTest : DataFiles := ⟨some "test\n".toList, none, none, none, none⟩

/-- The store after initializing from `fsNone` (fallback store). -/
def stNone : T9State := (t9plus_init t9plus_state_zero fsNone).1

/-- The store after initializing from `fsTest`. -/
def stTest : T9State := (t9plus_init t9plus_state_zero fsTest).1

/-- A 32-character line. -/
def line32 : List Char := "abcdefghijklmnopqrstuvwxyzabcdef".toList

/-- A 33-character line. -/
def line33 : List Char := "abcdefghijklmnopqrstuvwxyzabcdefg".toList

/-! ## Claim C1 -/

/-- C1 counterexample: on an initialized store whose tier1 holds the
word "test", the query "test " (trailing space) extracts the non-empty
word "test" and returns one suggestion — not the empty batch the claim
demands. -/
theorem claim1_counterexample :
    stTest.initialized = true ∧
    extract_last_word "test ".toList = "test".toList ∧
    t9plus_get_suggestions stTest (some "test ".toList) 3 = ["test".toList] := by
  refine ⟨rfl, by decide, by decide⟩

/-- C1 amended: the word extraction of `t9plus_get_suggestions` first
skips trailing whitespace and then takes the preceding word, so the
input "test " uses the prefix "test" exactly as the input "test" does,
and the two queries return identical batches on every store. -/
theorem claim1_amended (st : T9State) (n : Nat) :
    t9plus_get_suggestions st (some "test ".toList) n =
      t9plus_get_suggestions st (some "test".toList) n ∧
    extract_last_word "test ".toList = "test".toList ∧
    extract_last_word "test".toList = "test".toList := by
  refine ⟨?_, by decide, by decide⟩
  rfl

/-! ## Claim C6 -/

theorem ci_eq_chars_iff (pfx : List Char) : ∀ (w : List Char), pfx.length ≤ w.length →
    (ci_eq_chars w pfx = true ↔ (w.take pfx.length).map c_tolower = pfx.map c_tolower) := by
  induction pfx with
  | nil =>
    intro w _
    simp [ci_eq_chars]
  | cons q ps ih =>
    intro w hw
    cases w with
    | nil => simp at hw
    | cons a ws =>
      have hw' : ps.length ≤ ws.length := by
        simp only [List.length_cons] at hw
        omega
      simp [ci_eq_chars, List.take_succ_cons, Bool.and_eq_true, beq_iff_eq, ih ws hw']

/-- C6: `starts_with_ci` accepts a word exactly when the word is at
least as long as the query and its first `pfx.length` characters agree
with the query after ASCII lowercasing; in particular "Hello" matches
"he", "HE" and "He", and a word shorter than the query never matches. -/
theorem claim6_ci_matching :
    (∀ (word pfx : List Char),
      starts_with_ci word pfx = true ↔
        (pfx.length ≤ word.length ∧
         (word.take pfx.length).map c_tolower = pfx.map c_tolower)) ∧
    starts_with_ci "Hello".toList "he".toList = true ∧
    starts_with_ci "Hello".toList "HE".toList = true ∧
    starts_with_ci "Hello".toList "He".toList = true ∧
    starts_with_ci "h".toList "he".toList = false := by
  refine ⟨?_, by decide, by decide, by decide, by decide⟩
  intro word pfx
  unfold starts_with_ci
  by_cases h : word.length < pfx.length
  · rw [if_pos h]
    constructor
    · intro hf
      simp at hf
    · intro hc
      exact absurd hc.1 (by omega)
  · rw [if_neg h]
    have hle : pfx.length ≤ word.length := Nat.le_of_not_lt h
    rw [ci_eq_chars_iff pfx word hle]
    simp [hle]

/-! ## Claim C8 -/

/-- C8: a query against a store whose `initialized` flag is false — in
particular the pristine zero state, and any state just passed through
`t9plus_deinit` — returns the empty batch. -/
theorem claim8_uninitialized_safe :
    (∀ (st : T9State) (input : Option (List Char)) (n : Nat),
      st.initialized = false → t9plus_get_suggestions st input n = []) ∧
    (∀ (input : Option (List Char)) (n : Nat),
      t9plus_get_suggestions t9plus_state_zero input n = []) ∧
    (∀ (st : T9State) (input : Option (List Char)) (n : Nat),
      t9plus_get_suggestions (t9plus_deinit st) input n = []) := by
  have h1 : ∀ (st : T9State) (input : Option (List Char)) (n : Nat),
      st.initialized = false → t9plus_get_suggestions st input n = [] := by
    intro st input n h
    simp [t9plus_get_suggestions, h]
  refine ⟨h1, fun input n => h1 _ input n rfl, ?_⟩
  intro st input n
  refine h1 _ input n ?_
  unfold t9plus_deinit
  split
  · rename_i h
    exact h
  · rfl

/-- C8 witness: the first component of `claim8_uninitialized_safe`
applied at the zero state and a concrete query. -/
theorem claim8_witness :
    t9plus_get_suggestions t9plus_state_zero (some "the".toList) 3 = [] :=
  claim8_uninitialized_safe.1 t9plus_state_zero (some "the".toList) 3 rfl

/-! ## Claim C10 -/

/-- C10: a `NULL` input pointer returns the empty batch on every store,
exactly as the empty string does. -/
theorem claim10_null_input (st : T9State) (n : Nat) :
    t9plus_get_suggestions st none n = [] ∧
    t9plus_get_suggestions st none n = t9plus_get_suggestions st (some []) n := by
  constructor
  · unfold t9plus_get_suggestions
    split
    · rfl
    · rfl
  · unfold t9plus_get_suggestions
    split
    · rfl
    · rfl

/-! ## Claim C4 -/

/-- C4: for an initialized store and a query with a non-empty extracted
word, the batch is exactly the first `clamp_suggestions n` entries of
the matches of tier1 (Function words), tier3a (Chat/slang), tier3b
(Fillers), tier2 (Common lemmas) and tier4 (Formal discourse)
concatenated in that scan order, each tier contributing its matches in
insertion order. -/
theorem claim4_scan_order (st : T9State) (s : List Char) (n : Nat)
    (hinit : st.initialized = true) (hs : s.length ≠ 0)
    (hw : (extract_last_word s).length ≠ 0) :
    t9plus_get_suggestions st (some s) n =
      (tier_matches (st.tier1.words ++ st.tier3a.words ++ st.tier3b.words ++
        st.tier2.words ++ st.tier4.words) (extract_last_word s)).take
        (clamp_suggestions n) :=
  get_suggestions_eq st s n hinit hs hw

/-- C4 witness: the scan-order theorem applied to the fallback store
and the query "th". -/
theorem claim4_witness :
    t9plus_get_suggestions stNone (some "th".toList) 3 =
      (tier_matches (stNone.tier1.words ++ stNone.tier3a.words ++ stNone.tier3b.words ++
        stNone.tier2.words ++ stNone.tier4.words) (extract_last_word "th".toList)).take
        (clamp_suggestions 3) :=
  claim4_scan_order stNone "th".toList 3 rfl (by decide) (by decide)

/-! ## Claim C5 -/

theorem get_suggestions_length_le (st : T9State) (input : Option (List Char)) (n : Nat) :
    (t9plus_get_suggestions st input n).length ≤ clamp_suggestions n := by
  unfold t9plus_get_suggestions
  by_cases h0 : st.initialized = false
  · simp [h0]
  · rw [if_neg h0]
    cases input with
    | none => simp
    | some s =>
      dsimp only
      by_cases h1 : s.length = 0
      · simp [h1]
      · rw [if_neg h1]
        by_cases h2 : (extract_last_word s).length = 0
        · rw [if_pos h2]
          simp
        · rw [if_neg h2, scan_tiers_eq]
          simp only [List.length_take]
          omega

theorem clamp_le_self (n : Nat) : clamp_suggestions n ≤ n := by
  unfold clamp_suggestions
  split
  · rename_i h
    exact Nat.le_of_lt h
  · exact Nat.le_refl n

theorem clamp_le_max (n : Nat) : clamp_suggestions n ≤ T9PLUS_MAX_SUGGESTIONS := by
  unfold clamp_suggestions
  split
  · exact Nat.le_refl _
  · rename_i h
    exact Nat.le_of_not_lt h

theorem clamp_min_eq (n : Nat) :
    clamp_suggestions n = clamp_suggestions (min n T9PLUS_MAX_SUGGESTIONS) := by
  unfold clamp_suggestions
  have h : ¬ (T9PLUS_MAX_SUGGESTIONS < min n T9PLUS_MAX_SUGGESTIONS) := by
    have := Nat.min_le_right n T9PLUS_MAX_SUGGESTIONS
    omega
  rw [if_neg h]
  split
  · rename_i h2
    exact (Nat.min_eq_right (Nat.le_of_lt h2)).symm
  · rename_i h2
    exact (Nat.min_eq_left (Nat.le_of_not_lt h2)).symm

theorem get_suggestions_clamp (st : T9State) (input : Option (List Char)) (n : Nat) :
    t9plus_get_suggestions st input n =
      t9plus_get_suggestions st input (min n T9PLUS_MAX_SUGGESTIONS) := by
  unfold t9plus_get_suggestions
  simp only [← clamp_min_eq]

/-- C5: every batch is no longer than `max_suggestions` and no longer
than the hard maximum 3; a request above 3 behaves exactly like a
request of 3 (silent clamp); and on an initialized store with a
non-empty extracted word the batch length is exactly the smaller of the
clamped budget and the total number of matches across all five tiers —
so a tier is never skipped while budget remains. -/
theorem claim5_budget :
    (∀ (st : T9State) (input : Option (List Char)) (n : Nat),
      (t9plus_get_suggestions st input n).length ≤ n ∧
      (t9plus_get_suggestions st input n).length ≤ T9PLUS_MAX_SUGGESTIONS ∧
      t9plus_get_suggestions st input n =
        t9plus_get_suggestions st input (min n T9PLUS_MAX_SUGGESTIONS)) ∧
    (∀ (st : T9State) (s : List Char) (n : Nat),
      st.initialized = true → s.length ≠ 0 → (extract_last_word s).length ≠ 0 →
      (t9plus_get_suggestions st (some s) n).length =
        min (clamp_suggestions n)
          (tier_matches (st.tier1.words ++ st.tier3a.words ++ st.tier3b.words ++
            st.tier2.words ++ st.tier4.words) (extract_last_word s)).length) := by
  refine ⟨?_, ?_⟩
  · intro st input n
    exact ⟨Nat.le_trans (get_suggestions_length_le st input n) (clamp_le_self n),
      Nat.le_trans (get_suggestions_length_le st input n) (clamp_le_max n),
      get_suggestions_clamp st input n⟩
  · intro st s n hinit hs hw
    rw [get_suggestions_eq st s n hinit hs hw]
    simp [List.length_take]

/-- C5 witness: the exact-length component of `claim5_budget` applied
to the fallback store, the query "th" and budget 2. -/
theorem claim5_witness :
    (t9plus_get_suggestions stNone (some "th".toList) 2).length =
      min (clamp_suggestions 2)
        (tier_matches (stNone.tier1.words ++ stNone.tier3a.words ++ stNone.tier3b.words ++
          stNone.tier2.words ++ stNone.tier4.words) (extract_last_word "th".toList)).length :=
  claim5_budget.2 stNone "th".toList 2 rfl (by decide) (by decide)

/-! ## Claim C9 -/

theorem t9plus_init_fresh_tier1 (fs : DataFiles) :
    (t9plus_init_fresh fs).tier1 =
      (if (load_tier_from_file fs.tier1_function_words ⟨[], MAX_TIER_WORDS⟩).1.words.length = 0
       then add_fallback (load_tier_from_file fs.tier1_function_words ⟨[], MAX_TIER_WORDS⟩).1
       else (load_tier_from_file fs.tier1_function_words ⟨[], MAX_TIER_WORDS⟩).1) := rfl

/-- C9: whenever the tier1 load leaves the Function-words tier empty —
in particular when all five files fail to open — initialization injects
the built-in fallback list, so tier1 is non-empty and contains "the"
and "hello"; and with all five loads failed the recorded diagnostic is
the distinct "no data" message, as reported by the error-message
query. -/
theorem claim9_fallback :
    (∀ (st : T9State) (fs : DataFiles),
      st.initialized = false →
      (load_tier_from_file fs.tier1_function_words ⟨[], MAX_TIER_WORDS⟩).1.words = [] →
      ((t9plus_init st fs).1.tier1.words = fallback_words ∧
       (t9plus_init st fs).1.tier1.words ≠ [] ∧
       "the".toList ∈ (t9plus_init st fs).1.tier1.words ∧
       "hello".toList ∈ (t9plus_init st fs).1.tier1.words)) ∧
    (∀ (st : T9State),
      st.initialized = false →
      (t9plus_init st fsNone).1.has_load_errors = true ∧
      (t9plus_init st fsNone).1.error_message = "ERROR: No data files found!" ∧
      t9plus_get_error_message (t9plus_init st fsNone).1 =
        some "ERROR: No data files found!") := by
  constructor
  · intro st fs h hw
    have hc := load_tier_from_file_capacity fs.tier1_function_words ⟨[], MAX_TIER_WORDS⟩
    have ht : (load_tier_from_file fs.tier1_function_words ⟨[], MAX_TIER_WORDS⟩).1 =
        ⟨[], MAX_TIER_WORDS⟩ := by
      cases hld : (load_tier_from_file fs.tier1_function_words ⟨[], MAX_TIER_WORDS⟩).1 with
      | mk ws cap =>
        rw [hld] at hw hc
        dsimp only at hw hc
        rw [hw, hc]
    rw [t9plus_init_of_not_initialized st fs h]
    dsimp only
    rw [t9plus_init_fresh_tier1, ht]
    exact ⟨by decide, by decide, by decide, by decide⟩
  · intro st h
    rw [t9plus_init_of_not_initialized st fsNone h]
    dsimp only
    exact ⟨by decide, by decide, by decide⟩

/-- C9 witness: `claim9_fallback` applied at the zero state and the
all-missing file system. -/
theorem claim9_witness :
    ((t9plus_init t9plus_state_zero fsNone).1.tier1.words = fallback_words ∧
     (t9plus_init t9plus_state_zero fsNone).1.tier1.words ≠ [] ∧
     "the".toList ∈ (t9plus_init t9plus_state_zero fsNone).1.tier1.words ∧
     "hello".toList ∈ (t9plus_init t9plus_state_zero fsNone).1.tier1.words) ∧
    t9plus_get_error_message (t9plus_init t9plus_state_zero fsNone).1 =
      some "ERROR: No data files found!" :=
  ⟨claim9_fallback.1 t9plus_state_zero fsNone rfl (by decide),
   (claim9_fallback.2 t9plus_state_zero rfl).2.2⟩

/-! ## Claim C2 -/

/-- C2 counterexample: a 32-character source line is stored as a
32-character word, exceeding the 31-character bound the claim states. -/
theorem claim2_counterexample :
    (load_tier_from_file (some (line32 ++ ['\n'])) ⟨[], MAX_TIER_WORDS⟩).1.words = [line32] ∧
    31 < line32.length := by
  exact ⟨by decide, by decide⟩

/-- C2 amended: after initialization from any data files every tier
holds at most `MAX_TIER_WORDS` (1000) words and no stored word exceeds
`MAX_WORD_LEN` (32, not 31) characters; and an insertion into a tier
already at capacity is rejected, leaving the tier unchanged. -/
theorem claim2_capacity_invariant :
    (∀ (st : T9State) (fs : DataFiles),
      st.initialized = false →
      ∀ tier ∈ [(t9plus_init st fs).1.tier1, (t9plus_init st fs).1.tier2,
                (t9plus_init st fs).1.tier3a, (t9plus_init st fs).1.tier3b,
                (t9plus_init st fs).1.tier4],
        tier.words.length ≤ MAX_TIER_WORDS ∧ ∀ w ∈ tier.words, w.length ≤ MAX_WORD_LEN) ∧
    (∀ (tier : WordTier) (w : List Char),
      tier.capacity ≤ tier.words.length → tier_add_word tier w = (tier, false)) := by
  constructor
  · intro st fs h tier htier
    rw [t9plus_init_of_not_initialized st fs h] at htier
    have hb0 : TierBounded (⟨[], MAX_TIER_WORDS⟩ : WordTier) := ⟨by simp, by simp⟩
    have key : ∀ (t : WordTier), TierBounded t → t.capacity = MAX_TIER_WORDS →
        t.words.length ≤ MAX_TIER_WORDS ∧ ∀ w ∈ t.words, w.length ≤ MAX_WORD_LEN :=
      fun t hb hc => ⟨hc ▸ hb.1, hb.2⟩
    have h1 : (t9plus_init_fresh fs).tier1.words.length ≤ MAX_TIER_WORDS ∧
        ∀ w ∈ (t9plus_init_fresh fs).tier1.words, w.length ≤ MAX_WORD_LEN := by
      rw [t9plus_init_fresh_tier1]
      split
      · exact key _ (add_fallback_bounded _ (load_tier_from_file_bounded _ _ hb0))
          ((add_fallback_capacity _).trans (load_tier_from_file_capacity _ _))
      · exact key _ (load_tier_from_file_bounded _ _ hb0) (load_tier_from_file_capacity _ _)
    simp only [List.mem_cons, List.not_mem_nil, or_false] at htier
    rcases htier with rfl | rfl | rfl | rfl | rfl
    · exact h1
    · exact key _ (load_tier_from_file_bounded _ _ hb0) (load_tier_from_file_capacity _ _)
    · exact key _ (load_tier_from_file_bounded _ _ hb0) (load_tier_from_file_capacity _ _)
    · exact key _ (load_tier_from_file_bounded _ _ hb0) (load_tier_from_file_capacity _ _)
    · exact key _ (load_tier_from_file_bounded _ _ hb0) (load_tier_from_file_capacity _ _)
  · intro tier w hfull
    exact tier_add_word_full tier w hfull

/-- C2 witness: the invariant at the zero state with all files missing
(tier1 after fallback), and the rejection of an insert into a full
one-slot tier. -/
theorem claim2_witness :
    ((t9plus_init t9plus_state_zero fsNone).1.tier1.words.length ≤ MAX_TIER_WORDS ∧
      ∀ w ∈ (t9plus_init t9plus_state_zero fsNone).1.tier1.words, w.length ≤ MAX_WORD_LEN) ∧
    tier_add_word ⟨[['a']], 1⟩ ['b'] = (⟨[['a']], 1⟩, false) :=
  ⟨claim2_capacity_invariant.1 t9plus_state_zero fsNone rfl _ (by simp),
   claim2_capacity_invariant.2 ⟨[['a']], 1⟩ ['b'] (by decide)⟩

/-! ## Claim C3 -/

/-- C3 counterexample: a 33-character line loads zero words — it is
discarded entirely, not truncated to 31 characters and inserted as the
claim states. -/
theorem claim3_counterexample :
    31 < line33.length ∧
    (load_tier_from_file (some (line33 ++ ['\n'])) ⟨[], MAX_TIER_WORDS⟩).1.words = [] := by
  exact ⟨by decide, by decide⟩

/-- C3 amended: a non-comment, non-blank line longer than
`MAX_WORD_LEN` (32) characters is skipped entirely — the loader
consumes it to the end of the line and inserts nothing — while a line
of up to 32 characters (such as the 32-character `line32`) is inserted
whole, never truncated. -/
theorem claim3_amended :
    (∀ (l rest : List Char) (tier : WordTier),
      MAX_WORD_LEN < l.length →
      (∀ c ∈ l, ¬(c = '\n' ∨ c = '\r')) →
      load_lines (l ++ '\n' :: rest) [] false tier = load_lines rest [] false tier) ∧
    (load_tier_from_file (some (line32 ++ ['\n'])) ⟨[], MAX_TIER_WORDS⟩).1.words = [line32] := by
  constructor
  · intro l rest tier h1 h2
    refine load_lines_long_line l [] rest tier ?_ (by simp) h2
    simpa using h1
  · decide

/-- C3 witness: the skip behaviour of `claim3_amended` at the concrete
33-character line. -/
theorem claim3_witness :
    MAX_WORD_LEN < line33.length ∧
    load_lines (line33 ++ '\n' :: []) [] false ⟨[], MAX_TIER_WORDS⟩ =
      load_lines [] [] false ⟨[], MAX_TIER_WORDS⟩ :=
  ⟨by decide, claim3_amended.1 line33 [] ⟨[], MAX_TIER_WORDS⟩ (by decide) (by decide)⟩

/-! ## Claim C7 -/

/-- C7: a line of at most `MAX_WORD_LEN` characters is trimmed of
trailing whitespace, discarded when empty after trimming or when its
first character is `#`, and otherwise inserted as one word; and the
concrete source `"# comment\n\napple\nbanana  \n"` loads exactly the
words "apple" and "banana". -/
theorem claim7_line_parsing :
    (∀ (l rest : List Char) (tier : WordTier),
      l.length ≤ MAX_WORD_LEN →
      (∀ c ∈ l, ¬(c = '\n' ∨ c = '\r')) →
      load_lines (l ++ '\n' :: rest) [] false tier =
        load_lines rest [] false
          (if 0 < (rtrim l).length ∧ (rtrim l).head? ≠ some '#'
           then (tier_add_word tier (rtrim l)).1 else tier)) ∧
    load_tier_from_file (some "# comment\n\napple\nbanana  \n".toList) ⟨[], MAX_TIER_WORDS⟩ =
      (⟨["apple".toList, "banana".toList], MAX_TIER_WORDS⟩, true) := by
  constructor
  · intro l rest tier h1 h2
    have h := load_lines_one_line l [] rest tier (by simpa using h1) h2
    simpa [finish_line] using h
  · decide

/-- C7 witness: `claim7_line_parsing` applied to the ordinary line
"to". -/
theorem claim7_witness :
    "to".toList.length ≤ MAX_WORD_LEN ∧
    load_lines ("to".toList ++ '\n' :: []) [] false ⟨[], MAX_TIER_WORDS⟩ =
      load_lines [] [] false
        (if 0 < (rtrim "to".toList).length ∧ (rtrim "to".toList).head? ≠ some '#'
         then (tier_add_word ⟨[], MAX_TIER_WORDS⟩ (rtrim "to".toList)).1
         else ⟨[], MAX_TIER_WORDS⟩) :=
  ⟨by decide, claim7_line_parsing.1 "to".toList [] ⟨[], MAX_TIER_WORDS⟩ (by decide) (by decide)⟩
